import Mathlib

/-!
Verification of the Ad_generator reel-generation pipeline.

Shallow embedding of the pure logic of the repository:
pexels_client.py (query planning, candidate scoring and selection, fallback
segments, per-keyword slot duration), video_assembler.py (duration fitting,
fade transitions, word-level captions) and the two orchestrators
main_reel_generator.py / t2v_reel_generator.py (cleanup control flow).
Durations are modelled as rationals; randomness and external I/O (HTTP
search results, the media library, the LLM) are explicit parameters.
-/

/-! ### Clips and duration fitting (video_assembler.py, _process_video_files) -/

/-- A video clip, abstracted to its duration in seconds. -/
structure Clip where
  duration : ℚ
deriving DecidableEq

/-- Embeds MoviePy clip.subclipped(startT, endT): the resulting clip covers
the half-open interval from startT to endT, so its duration is the difference. -/
def subclipped (c : Clip) (startT endT : ℚ) : Clip :=
  { c with duration := endT - startT }

/-- Embeds concatenate_videoclips: durations add. -/
def concatenateClips (cs : List Clip) : Clip :=
  ⟨(cs.map Clip.duration).sum⟩

/-- Embeds the duration-fitting step of _process_video_files
(video_assembler.py lines 123-129): if the clip is longer than the required
slot, trim to the slot; if shorter, replicate it int(required/native)+1 times,
concatenate, and trim; otherwise keep the clip.  Python int() on a positive
float truncates, i.e. takes the floor. -/
def fitClip (c : Clip) (r : ℚ) : Clip :=
  if r < c.duration then
    subclipped c 0 r
  else if c.duration < r then
    subclipped (concatenateClips (List.replicate ((⌊r / c.duration⌋).toNat + 1) c)) 0 r
  else
    c

/-! ### Fade transitions (video_assembler.py, _concatenate_videos) -/

/-- A fade effect with its duration, as applied by clip.with_effects. -/
inductive VEffect where
  | fadeIn (d : ℚ)
  | fadeOut (d : ℚ)
deriving DecidableEq

/-- A clip abstracted to the list of fade effects applied to it. -/
structure EClip where
  effects : List VEffect
deriving DecidableEq

/-- Embeds clip.with_effects(es): the new clip carries the added effects. -/
def withEffects (c : EClip) (es : List VEffect) : EClip :=
  ⟨c.effects ++ es⟩

/-- Embeds the fade loop of _concatenate_videos (video_assembler.py lines
150-162): position 0 takes the first branch (fade-in), otherwise the last
position takes the fade-out branch, and all other positions take both. -/
def applyFadeTransitions (clips : List EClip) : List EClip :=
  clips.mapIdx fun i c =>
    if i = 0 then
      withEffects c [VEffect.fadeIn (1/2)]
    else if i = clips.length - 1 then
      withEffects c [VEffect.fadeOut (1/2)]
    else
      withEffects c [VEffect.fadeIn (1/2), VEffect.fadeOut (1/2)]

/-! ### Dynamic query generation (pexels_client.py, _generate_dynamic_query) -/

/-- The business-context vocabulary of _generate_dynamic_query
(pexels_client.py lines 136-141). -/
def business_contexts : List String :=
  ["corporate", "business", "professional", "office",
   "executive", "team", "workplace", "meeting",
   "collaboration", "leadership", "strategy", "entrepreneur",
   "boardroom", "conference", "presentation", "handshake"]

/-- The industry-modifier vocabulary of _generate_dynamic_query
(pexels_client.py lines 144-147). -/
def industry_modifiers : List String :=
  ["modern", "contemporary", "successful", "innovative",
   "diverse", "focused", "dynamic", "strategic"]

/-- Draws k distinct elements from a population, as random.sample does: each
index in the stream picks one remaining element, which is then removed.
An exhausted population ends the draw. -/
def sampleAux {α : Type} : List α → List Nat → List α
  | _, [] => []
  | pop, j :: js =>
    match pop[j % pop.length]? with
    | none => []
    | some x => x :: sampleAux (pop.eraseIdx (j % pop.length)) js

/-- Reorders a list, as random.shuffle does: each index in the stream moves
one remaining element to the front.  Whatever the index stream, the result is
a permutation of the input. -/
def shuffleAux {α : Type} : List α → List Nat → List α
  | xs, [] => xs
  | xs, j :: js =>
    match xs[j % xs.length]? with
    | none => xs
    | some x => x :: shuffleAux (xs.eraseIdx (j % xs.length)) js

/-- One draw of the random numbers consumed by _generate_dynamic_query:
the result of randint(2,3), the index stream behind random.sample, the
outcome of random.random() > 0.5, the index behind random.choice over the
modifiers, and the index stream behind random.shuffle. -/
structure QueryRand where
  ctxThree : Bool
  ctxIdx : List Nat
  useModifier : Bool
  modIdx : Nat
  shuffleIdx : List Nat

/-- The 2-3 context terms sampled by _generate_dynamic_query
(pexels_client.py line 150). -/
def selectedContexts (r : QueryRand) : List String :=
  sampleAux business_contexts (r.ctxIdx.take (if r.ctxThree then 3 else 2))

/-- The modifier picked by random.choice(industry_modifiers)
(pexels_client.py line 154). -/
def chosenModifier (r : QueryRand) : String :=
  industry_modifiers.get
    ⟨r.modIdx % industry_modifiers.length, Nat.mod_lt _ (by decide)⟩

/-- The shuffled token list assembled by _generate_dynamic_query
(pexels_client.py lines 150-160): the keyword, the sampled context terms,
and - on a coin flip - one industry modifier, in shuffled order. -/
def generateDynamicQueryParts (keyword : String) (r : QueryRand) : List String :=
  let selected := selectedContexts r
  let queryParts :=
    if r.useModifier then
      [keyword] ++ selected ++ [chosenModifier r]
    else
      [keyword] ++ selected
  shuffleAux queryParts r.shuffleIdx

/-- Embeds the space join on the shuffled token list, Python str.join with a
single-space separator (pexels_client.py line 162). -/
def joinSp : List String → String
  | [] => ""
  | [p] => p
  | p :: q :: ps => p ++ " " ++ joinSp (q :: ps)

/-- The query string returned by _generate_dynamic_query. -/
def generateDynamicQuery (keyword : String) (r : QueryRand) : String :=
  joinSp (generateDynamicQueryParts keyword r)

/-- Splits a character list at spaces; the accumulator holds the characters
of the current token in reverse. -/
def splitSpaces : List Char → List Char → List (List Char)
  | [], acc => [acc.reverse]
  | c :: cs, acc =>
    if c = ' ' then acc.reverse :: splitSpaces cs []
    else splitSpaces cs (c :: acc)

/-- The space-separated tokens of a string. -/
def spaceTokens (s : String) : List String :=
  (splitSpaces s.data []).map fun l => String.mk l

/-- Formalizes the locale-sampling event asserted by the specification for
the query planner: some keyword and some random draw make the planner emit a
token that is neither the keyword itself, nor a general business-context
term, nor an industry modifier - i.e. a token that could only come from a
separate locale vocabulary. -/
def localeSamplingEvent : Prop :=
  ∃ (keyword : String) (r : QueryRand) (t : String),
    t ∈ generateDynamicQueryParts keyword r ∧
    t ≠ keyword ∧ t ∉ business_contexts ∧ t ∉ industry_modifiers

/-! ### Candidate scoring and selection (pexels_client.py, _select_best_business_video) -/

/-- A Pexels video file variant (entries of video_files in the API response). -/
structure VideoFile where
  width : Int
  height : Int
  quality : String
  link : String
deriving DecidableEq

/-- A Pexels video candidate, with the fields the client reads. -/
structure Video where
  id : Nat
  url : String
  userName : String
  duration : Int
  video_files : List VideoFile
deriving DecidableEq

/-- The positive business indicators of _select_best_business_video
(pexels_client.py lines 230-235). -/
def business_indicators : List String :=
  ["office", "business", "corporate", "professional", "meeting",
   "conference", "executive", "team", "workplace", "boardroom",
   "presentation", "handshake", "suit", "desk", "computer",
   "collaboration", "strategy", "leadership", "entrepreneur"]

/-- The negative indicators of _select_best_business_video
(pexels_client.py lines 238-243). -/
def avoid_keywords : List String :=
  ["farm", "agriculture", "food", "kitchen", "cooking", "recipe",
   "juice", "drink", "beverage", "fruit", "garden", "plant",
   "sport", "fitness", "gym", "workout", "exercise", "outdoor",
   "beach", "vacation", "travel", "party", "celebration"]

/-- Python str.lower, applied character by character. -/
def pyLower (s : String) : String :=
  String.mk (s.data.map Char.toLower)

/-- The lower-cased haystack scored for each candidate (pexels_client.py
lines 258-263): the URL and the already lower-cased uploader name, joined by
a space, lower-cased again. -/
def videoText (v : Video) : String :=
  pyLower (v.url ++ " " ++ pyLower v.userName)

/-- Python substring membership, term in txt. -/
def containsTerm (txt term : String) : Bool :=
  decide (term.data <:+: txt.data)

/-- The scoring loop of _select_best_business_video (pexels_client.py lines
256-281): +2 per business indicator found in the haystack, -3 per avoid
keyword found, +1 when the native duration lies in the inclusive 8..15
window. -/
def scoreVideo (v : Video) : Int :=
  let txt := videoText v
  let s1 := business_indicators.foldl
    (fun s ind => if containsTerm txt ind then s + 2 else s) 0
  let s2 := avoid_keywords.foldl
    (fun s av => if containsTerm txt av then s - 3 else s) s1
  if 8 ≤ v.duration ∧ v.duration ≤ 15 then s2 + 1 else s2

/-- Inserts an element into a descending-sorted list, after all strictly
greater keys and before equal ones. -/
def insertDescBy {α : Type} (key : α → Int) (x : α) : List α → List α
  | [] => [x]
  | y :: ys => if key x < key y then y :: insertDescBy key x ys else x :: y :: ys

/-- Stable descending sort by an integer key: the unique stable descending
order, extensionally Python sorted(..., key=key, reverse=True). -/
def sortDescBy {α : Type} (key : α → Int) (l : List α) : List α :=
  l.foldr (insertDescBy key) []

/-- Embeds _select_best_business_video (pexels_client.py lines 226-297):
filter out already used candidate identifiers, fall back to the unfiltered
list when that empties it, score every remaining candidate, stably sort by
descending score, and pick one of the top 3 with the random index pick.
The final videos.head? models the trailing return videos[0], reached only
when no candidate was scored. -/
def selectBestBusinessVideo (videos : List Video) (used : List Nat) (pick : Nat) :
    Option Video :=
  let available := videos.filter fun v => decide (v.id ∉ used)
  let available2 := if available.isEmpty then videos else available
  let scored := available2.map fun v => (scoreVideo v, v)
  if scored.isEmpty then videos.head?
  else
    let sorted := sortDescBy Prod.fst scored
    let top := sorted.take 3
    (top[pick % top.length]?).map Prod.snd

/-! ### Best file variant (pexels_client.py, _select_best_video_file) -/

/-- Pixel area of a file variant, Python width*height. -/
def fileArea (f : VideoFile) : Int :=
  f.width * f.height

/-- Embeds _select_best_video_file (pexels_client.py lines 197-224): prefer
portrait variants (height above width); when none exist, rank all variants
by descending area; then prefer hd quality; otherwise take the first ranked
variant, or none when the candidate has no variants at all. -/
def selectBestVideoFile (v : Video) : Option VideoFile :=
  let portraitA := v.video_files.filter fun f => decide (f.width < f.height)
  let portrait :=
    if portraitA.isEmpty then sortDescBy fileArea v.video_files
    else portraitA
  let hdFiles := portrait.filter fun f => decide (f.quality = "hd")
  match hdFiles with
  | f :: _ => some f
  | [] => portrait.head?

/-! ### Segments, fallback segments (pexels_client.py) -/

/-- A video segment dict as built in search_portrait_videos lines 99-107 and
_get_fallback_videos lines 319-327. -/
structure Segment where
  keyword : String
  duration : Int
  width : Int
  height : Int
  url : String
  quality : String
  video_id : Nat
deriving DecidableEq

/-- Builds the segment dict from a chosen candidate and file variant. -/
def mkSegment (kw : String) (v : Video) (f : VideoFile) : Segment :=
  ⟨kw, v.duration, f.width, f.height, f.link, f.quality, v.id⟩

/-- The rotating fallback base terms (pexels_client.py line 303). -/
def fallback_base_terms : List String :=
  ["business", "corporate", "professional", "office", "team"]

/-- The external data consumed by one iteration of _get_fallback_videos:
the random base-term index, the planner randomness, the list returned by
_search_videos for the planned query, and the random.choice index. -/
structure FallbackAttempt where
  baseIdx : Nat
  qr : QueryRand
  videos : List Video
  choiceIdx : Nat

/-- The dynamic query planned for a fallback iteration (pexels_client.py
lines 308-309): a random base term run through _generate_dynamic_query. -/
def fallbackQuery (a : FallbackAttempt) : String :=
  generateDynamicQuery
    (fallback_base_terms.get
      ⟨a.baseIdx % fallback_base_terms.length, Nat.mod_lt _ (by decide)⟩)
    a.qr

/-- One iteration body of _get_fallback_videos (pexels_client.py lines
310-327): when the search returned candidates, pick one uniformly at random
(random.choice, not the business scorer) and extract its best file variant;
any failure yields nothing for this iteration. -/
def runFallbackAttempt (a : FallbackAttempt) : Option (Video × VideoFile) :=
  match a.videos[a.choiceIdx % a.videos.length]? with
  | none => none
  | some v =>
    match selectBestVideoFile v with
    | none => none
    | some f => some (v, f)

/-- The for i in range(5) loop of _get_fallback_videos: i is the iteration
counter, fuel the remaining iterations; a produced segment is labeled
fallback_(i+1), and the loop breaks once 2 segments have accumulated. -/
def fallbackGo (attempts : Nat → FallbackAttempt) :
    Nat → Nat → List Segment → List Segment
  | 0, _, acc => acc
  | fuel + 1, i, acc =>
    match runFallbackAttempt (attempts i) with
    | none => fallbackGo attempts fuel (i + 1) acc
    | some (v, f) =>
      if 2 ≤ (acc ++ [mkSegment ("fallback_" ++ toString (i + 1)) v f]).length then
        acc ++ [mkSegment ("fallback_" ++ toString (i + 1)) v f]
      else
        fallbackGo attempts fuel (i + 1)
          (acc ++ [mkSegment ("fallback_" ++ toString (i + 1)) v f])

/-- Embeds _get_fallback_videos (pexels_client.py lines 299-337). -/
def getFallbackVideos (attempts : Nat → FallbackAttempt) : List Segment :=
  fallbackGo attempts 5 0 []

/-! ### Per-keyword search (pexels_client.py, search_portrait_videos) -/

/-- The per-keyword slot duration computed at pexels_client.py line 64,
max(6, target_duration / len(keywords)).  Python raises ZeroDivisionError on
an empty keyword list, before any per-keyword error handling exists. -/
def durationPerVideo (targetDuration : ℚ) (keywords : List String) :
    Except String ℚ :=
  if keywords.length = 0 then Except.error "ZeroDivisionError"
  else Except.ok (max 6 (targetDuration / keywords.length))

/-- Embeds the control flow of search_portrait_videos (pexels_client.py
lines 46-127).  The slot duration is computed before the keyword loop; the
try body of one keyword iteration (query planning, HTTP search, candidate
and file selection) is abstracted by attempt, which receives the keyword,
the slot duration and the used-identifier list, and yields none when the
iteration produced nothing (no result, no variant, or an exception, all of
which continue the loop).  Fewer than 3 produced segments trigger the
fallback extension, and at most 5 segments are returned. -/
def searchPortraitVideos (attempt : String → ℚ → List Nat → Option Segment)
    (fallbackSegs : List Segment) (keywords : List String)
    (targetDuration : ℚ) : Except String (List Segment) :=
  match durationPerVideo targetDuration keywords with
  | Except.error e => Except.error e
  | Except.ok dpv =>
    let st := keywords.foldl (fun st kw =>
      match attempt kw dpv st.2 with
      | none => st
      | some seg => (st.1 ++ [seg], st.2 ++ [seg.video_id]))
      (([], []) : List Segment × List Nat)
    let segs := if st.1.length < 3 then st.1 ++ fallbackSegs else st.1
    Except.ok (segs.take 5)

/-! ### Word-level captions (video_assembler.py, _create_word_level_subtitles) -/

/-- One word of the Whisper word-level transcript. -/
structure WordData where
  word : String
  start : ℚ
  endT : ℚ
deriving DecidableEq

/-- A built caption element (the TextClip with its position and timing). -/
structure Caption where
  text : String
  start : ℚ
  dur : ℚ
deriving DecidableEq

/-- Python str.strip with no argument: remove leading and trailing
whitespace. -/
def pyStrip (s : String) : String :=
  String.mk
    (((s.data.dropWhile Char.isWhitespace).reverse.dropWhile
      Char.isWhitespace).reverse)

/-- The word loop inside the try block of _create_word_level_subtitles
(video_assembler.py lines 255-272): a word whose stripped text is empty is
skipped; otherwise the caption element is built (the TextClip construction,
abstracted by build, can raise, modelled by Except.error) and appended.  An
exception propagates out of the loop. -/
def subtitleLoop (build : WordData → Except String Caption) :
    List WordData → List Caption → Except String (List Caption)
  | [], acc => Except.ok acc.reverse
  | w :: ws, acc =>
    if pyStrip w.word = "" then subtitleLoop build ws acc
    else
      match build w with
      | Except.error e => Except.error e
      | Except.ok c => subtitleLoop build ws (c :: acc)

/-- Embeds _create_word_level_subtitles (video_assembler.py lines 245-277):
the try block runs the whole word loop; the except clause catches any
exception escaping it and returns the empty list. -/
def createWordLevelSubtitles (build : WordData → Except String Caption)
    (wordsData : List WordData) : List Caption :=
  match subtitleLoop build wordsData [] with
  | Except.ok cs => cs
  | Except.error _ => []

/-! ### Orchestrator cleanup control flow -/

/-- The outcomes of the five pipeline stages run inside the try block of
ReelGenerator.generate_reel (main_reel_generator.py lines 99-138):
transcription, keyword extraction, Pexels search, downloads, assembly.
Each stage either succeeds or raises. -/
structure MainRunEnv where
  transcribeOk : Bool
  extractOk : Bool
  searchOk : Bool
  downloadOk : Bool
  assembleOk : Bool

/-- Embeds the control flow of ReelGenerator.generate_reel
(main_reel_generator.py lines 85-143): the stages run in order; the first
raising stage jumps to the except clause, which logs and re-raises;
_cleanup_temp_files is the last statement of the try block, so it runs only
when every stage succeeded.  The Bool records whether cleanup was invoked
before the call returned or re-raised. -/
def mainGenerateReel (e : MainRunEnv) : Except String String × Bool :=
  if !e.transcribeOk then (Except.error "transcription raised", false)
  else if !e.extractOk then (Except.error "keyword extraction raised", false)
  else if !e.searchOk then (Except.error "pexels search raised", false)
  else if !e.downloadOk then (Except.error "download raised", false)
  else if !e.assembleOk then (Except.error "assembly raised", false)
  else (Except.ok "final_video_path", true)

/-- The outcomes of the stages run inside the try block of
T2VReelGenerator.generate_reel (t2v_reel_generator.py lines 116-174),
together with the file list returned by the T2V client (an empty list makes
the generator raise explicitly at line 149). -/
structure T2VRunEnv where
  transcribeOk : Bool
  extractOk : Bool
  promptsOk : Bool
  generateOk : Bool
  generatedFiles : List String
  assembleOk : Bool

/-- Embeds the control flow of T2VReelGenerator.generate_reel
(t2v_reel_generator.py lines 100-187): same sequential stages, but the
except clause attempts _cleanup_temp_files (inside its own try) before
re-raising, and the success path runs cleanup as well, so cleanup is
attempted on every exit.  The Bool records whether cleanup was invoked. -/
def t2vGenerateReel (e : T2VRunEnv) : Except String String × Bool :=
  if !e.transcribeOk then (Except.error "transcription raised", true)
  else if !e.extractOk then (Except.error "keyword extraction raised", true)
  else if !e.promptsOk then (Except.error "prompt generation raised", true)
  else if !e.generateOk then (Except.error "t2v generation raised", true)
  else if e.generatedFiles.isEmpty then
    (Except.error "No videos were successfully generated by T2V service", true)
  else if !e.assembleOk then (Except.error "assembly raised", true)
  else (Except.ok "final_video_path", true)

/-! ### Concrete inputs for witnesses and counterexamples -/

/-- A draw with two context terms and no modifier. -/
def exQR : QueryRand := ⟨false, [0, 1], false, 0, []⟩

/-- A draw with three context terms, a modifier, and a nontrivial shuffle. -/
def exQR2 : QueryRand := ⟨true, [0, 1, 2], true, 3, [2, 0, 1]⟩

/-- A portrait hd file variant. -/
def exFile : VideoFile := ⟨720, 1280, "hd", "https://cdn.example/a.mp4"⟩

/-- A candidate with a portrait hd variant. -/
def exVid : Video :=
  ⟨7, "https://www.pexels.com/video/team-office-1", "Ann", 10, [exFile]⟩

/-- A candidate whose haystack contains positive indicators and no negative
ones. -/
def exVidA : Video :=
  ⟨1, "https://www.pexels.com/video/office-desk-11", "Bob", 10, []⟩

/-- A candidate whose haystack contains no indicator at all, otherwise
identical to exVidA. -/
def exVidB : Video :=
  ⟨2, "https://www.pexels.com/video/river-nature-22", "Bob", 10, []⟩

/-- A fallback iteration whose search returned nothing. -/
def exAttemptEmpty : FallbackAttempt := ⟨0, exQR, [], 0⟩

/-- A fallback iteration whose search returned one usable candidate. -/
def exAttemptHit : FallbackAttempt := ⟨0, exQR, [exVid], 0⟩

/-- Fallback iterations where the first search comes back empty and the
later ones succeed. -/
def exAttemptsCex : Nat → FallbackAttempt :=
  fun i => if i = 0 then exAttemptEmpty else exAttemptHit

/-- Fallback iterations that all succeed. -/
def exAttemptsW : Nat → FallbackAttempt := fun _ => exAttemptHit

/-- Three transcript words; the middle one will make the caption build fail. -/
def exWords : List WordData :=
  [⟨"ciao", 0, 1⟩, ⟨"bad", 1, 2⟩, ⟨"mondo", 2, 3⟩]

/-- The caption produced for a word when the build succeeds. -/
def exCap : WordData → Caption :=
  fun w => ⟨pyStrip w.word, w.start, w.endT - w.start⟩

/-- A caption build that raises on the word bad and succeeds elsewhere. -/
def exBuildFail : WordData → Except String Caption :=
  fun w => if w.word = "bad" then Except.error "TextClip raised"
           else Except.ok (exCap w)

/-- A caption build that always succeeds. -/
def exBuildOk : WordData → Except String Caption :=
  fun w => Except.ok (exCap w)

/-! ### Helper lemmas -/

theorem mk_data (s : String) : String.mk s.data = s := rfl

theorem cons_eraseIdx_perm {α : Type} :
    ∀ (xs : List α) (k : Nat) (x : α), xs[k]? = some x →
    (x :: xs.eraseIdx k).Perm xs := by
  intro xs
  induction xs with
  | nil => intro k x h; simp at h
  | cons a t ih =>
    intro k x h
    cases k with
    | zero =>
      simp at h
      subst h
      simp [List.eraseIdx]
    | succ k =>
      have h2 : t[k]? = some x := by simpa using h
      have ihp := ih k x h2
      have : (a :: t).eraseIdx (k + 1) = a :: t.eraseIdx k := rfl
      rw [this]
      exact (List.Perm.swap a x _).trans (ihp.cons a)

theorem shuffleAux_perm {α : Type} :
    ∀ (js : List Nat) (xs : List α), (shuffleAux xs js).Perm xs := by
  intro js
  induction js with
  | nil => intro xs; simp [shuffleAux]
  | cons j js ih =>
    intro xs
    unfold shuffleAux
    cases h : xs[j % xs.length]? with
    | none => exact List.Perm.refl xs
    | some x =>
      exact ((ih (xs.eraseIdx (j % xs.length))).cons x).trans
        (cons_eraseIdx_perm xs _ x h)

theorem sampleAux_subset {α : Type} :
    ∀ (js : List Nat) (pop : List α) (x : α), x ∈ sampleAux pop js → x ∈ pop := by
  intro js
  induction js with
  | nil => intro pop x h; simp [sampleAux] at h
  | cons j js ih =>
    intro pop x h
    unfold sampleAux at h
    cases hg : pop[j % pop.length]? with
    | none => rw [hg] at h; simp at h
    | some y =>
      rw [hg] at h
      rcases List.mem_cons.mp h with rfl | h2
      · exact List.getElem?_mem hg
      · exact List.eraseIdx_subset _ _ (ih _ _ h2)

theorem sampleAux_length {α : Type} :
    ∀ (js : List Nat) (pop : List α), js.length ≤ pop.length →
    (sampleAux pop js).length = js.length := by
  intro js
  induction js with
  | nil => intro pop _; simp [sampleAux]
  | cons j js ih =>
    intro pop hle
    have hpos : 0 < pop.length := lt_of_lt_of_le (Nat.succ_pos _) hle
    have hidx : j % pop.length < pop.length := Nat.mod_lt _ hpos
    unfold sampleAux
    rw [List.getElem?_eq_getElem hidx]
    have hlen : (pop.eraseIdx (j % pop.length)).length = pop.length - 1 := by
      rw [List.length_eraseIdx]; simp [hidx]
    have hle2 : js.length + 1 ≤ pop.length := by simpa using hle
    have : js.length ≤ (pop.eraseIdx (j % pop.length)).length := by
      rw [hlen]; omega
    simp [ih _ this]

theorem selectedContexts_subset (r : QueryRand) :
    ∀ t ∈ selectedContexts r, t ∈ business_contexts := by
  intro t ht
  exact sampleAux_subset _ _ _ ht

theorem chosenModifier_mem (r : QueryRand) :
    chosenModifier r ∈ industry_modifiers :=
  List.get_mem _ _ _

theorem parts_vocab (keyword : String) (r : QueryRand) :
    ∀ t ∈ generateDynamicQueryParts keyword r,
      t = keyword ∨ t ∈ business_contexts ∨ t ∈ industry_modifiers := by
  intro t ht
  unfold generateDynamicQueryParts at ht
  have ht2 := (shuffleAux_perm r.shuffleIdx _).mem_iff.mp ht
  by_cases hm : r.useModifier
  · simp only [hm, if_true] at ht2
    rcases List.mem_append.mp ht2 with h | h
    · rcases List.mem_append.mp h with h1 | h1
      · exact Or.inl (List.mem_singleton.mp h1)
      · exact Or.inr (Or.inl (selectedContexts_subset r t h1))
    · have : t = chosenModifier r := List.mem_singleton.mp h
      exact Or.inr (Or.inr (this ▸ chosenModifier_mem r))
  · simp only [hm, if_false] at ht2
    rcases List.mem_append.mp ht2 with h | h
    · exact Or.inl (List.mem_singleton.mp h)
    · exact Or.inr (Or.inl (selectedContexts_subset r t h))

theorem splitSpaces_nospace_append (a : List Char) (h : ' ' ∉ a) :
    ∀ (rest acc : List Char),
    splitSpaces (a ++ rest) acc = splitSpaces rest (a.reverse ++ acc) := by
  induction a with
  | nil => intro rest acc; simp
  | cons c a ih =>
    intro rest acc
    have hc : c ≠ ' ' := fun hce => h (hce ▸ List.mem_cons_self c a)
    have ha : ' ' ∉ a := fun hm => h (List.mem_cons_of_mem c hm)
    have hlist : (c :: a).reverse ++ acc = a.reverse ++ (c :: acc) := by simp
    rw [List.cons_append]
    simp only [splitSpaces]
    rw [if_neg hc, ih ha rest (c :: acc), hlist]

theorem splitSpaces_joinSp :
    ∀ (parts : List String), parts ≠ [] → (∀ p ∈ parts, ' ' ∉ p.data) →
    splitSpaces (joinSp parts).data [] = parts.map String.data := by
  intro parts
  induction parts with
  | nil => intro h; exact absurd rfl h
  | cons p ps ih =>
    intro _ hns
    cases ps with
    | nil =>
      have hp : ' ' ∉ p.data := hns p (List.mem_cons_self p [])
      rw [show joinSp [p] = p from rfl]
      have hstep := splitSpaces_nospace_append p.data hp [] []
      rw [List.append_nil] at hstep
      rw [hstep]
      simp [splitSpaces]
    | cons q qs =>
      have hp : ' ' ∉ p.data := hns p (List.mem_cons_self p _)
      have hdata : (joinSp (p :: q :: qs)).data =
          p.data ++ (' ' :: (joinSp (q :: qs)).data) := by
        show (p ++ " " ++ joinSp (q :: qs)).data = _
        rw [String.data_append, String.data_append]
        simp only [List.append_assoc]
        rfl
      rw [hdata, splitSpaces_nospace_append p.data hp _ []]
      simp only [splitSpaces, if_true]
      have ihq := ih (by simp) (fun x hx => hns x (List.mem_cons_of_mem p hx))
      rw [ihq]
      simp

theorem spaceTokens_joinSp (parts : List String) (hne : parts ≠ [])
    (hns : ∀ p ∈ parts, ' ' ∉ p.data) :
    spaceTokens (joinSp parts) = parts := by
  unfold spaceTokens
  rw [splitSpaces_joinSp parts hne hns, List.map_map]
  have hco : (fun l => String.mk l) ∘ String.data = id := by
    funext s
    rfl
  rw [hco, List.map_id]

theorem foldl_add_two (l : List String) (p : String → Bool) :
    ∀ init : Int,
    l.foldl (fun s t => if p t then s + 2 else s) init = init + 2 * l.countP p := by
  induction l with
  | nil => intro init; simp
  | cons hd tl ih =>
    intro init
    by_cases hp : p hd
    · simp only [List.foldl_cons, hp, if_true, List.countP_cons, ih]
      push_cast
      ring
    · simp only [List.foldl_cons, hp, if_false, List.countP_cons, ih]
      simp [hp]

theorem foldl_sub_three (l : List String) (p : String → Bool) :
    ∀ init : Int,
    l.foldl (fun s t => if p t then s - 3 else s) init = init - 3 * l.countP p := by
  induction l with
  | nil => intro init; simp
  | cons hd tl ih =>
    intro init
    by_cases hp : p hd
    · simp only [List.foldl_cons, hp, if_true, List.countP_cons, ih]
      push_cast
      ring
    · simp only [List.foldl_cons, hp, if_false, List.countP_cons, ih]
      simp [hp]

theorem insertDescBy_perm {α : Type} (key : α → Int) (x : α) :
    ∀ l : List α, (insertDescBy key x l).Perm (x :: l) := by
  intro l
  induction l with
  | nil => simp [insertDescBy]
  | cons y ys ih =>
    unfold insertDescBy
    by_cases h : key x < key y
    · rw [if_pos h]
      exact (ih.cons y).trans (List.Perm.swap x y ys)
    · rw [if_neg h]

theorem sortDescBy_perm {α : Type} (key : α → Int) :
    ∀ l : List α, (sortDescBy key l).Perm l := by
  intro l
  induction l with
  | nil => simp [sortDescBy]
  | cons y ys ih =>
    have : sortDescBy key (y :: ys) = insertDescBy key y (sortDescBy key ys) := rfl
    rw [this]
    exact (insertDescBy_perm key y _).trans (ih.cons y)

theorem subtitleLoop_error (build : WordData → Except String Caption) :
    ∀ (ws : List WordData) (acc : List Caption),
    (∃ w ∈ ws, pyStrip w.word ≠ "" ∧ ∃ e, build w = Except.error e) →
    ∃ e2, subtitleLoop build ws acc = Except.error e2 := by
  intro ws
  induction ws with
  | nil =>
    intro acc h
    rcases h with ⟨w, hw, _⟩
    simp at hw
  | cons hd tl ih =>
    intro acc h
    rcases h with ⟨w, hw, hne, e, he⟩
    rcases List.mem_cons.mp hw with rfl | hwtl
    · unfold subtitleLoop
      rw [if_neg hne, he]
      exact ⟨e, rfl⟩
    · unfold subtitleLoop
      by_cases hhd : pyStrip hd.word = ""
      · rw [if_pos hhd]
        exact ih acc ⟨w, hwtl, hne, e, he⟩
      · rw [if_neg hhd]
        cases hb : build hd with
        | error e3 => exact ⟨e3, rfl⟩
        | ok c => exact ih (c :: acc) ⟨w, hwtl, hne, e, he⟩

theorem subtitleLoop_ok (build : WordData → Except String Caption)
    (f : WordData → Caption) :
    ∀ (ws : List WordData) (acc : List Caption),
    (∀ w ∈ ws, pyStrip w.word ≠ "" → build w = Except.ok (f w)) →
    subtitleLoop build ws acc = Except.ok
      (acc.reverse ++ (ws.filter fun w => decide (pyStrip w.word ≠ "")).map f) := by
  intro ws
  induction ws with
  | nil => intro acc _; simp [subtitleLoop]
  | cons hd tl ih =>
    intro acc h
    by_cases hhd : pyStrip hd.word = ""
    · unfold subtitleLoop
      rw [if_pos hhd]
      rw [ih acc (fun w hw => h w (List.mem_cons_of_mem hd hw))]
      simp [List.filter_cons, hhd]
    · unfold subtitleLoop
      rw [if_neg hhd, h hd (List.mem_cons_self hd tl) hhd]
      dsimp only
      rw [ih (f hd :: acc) (fun w hw => h w (List.mem_cons_of_mem hd hw))]
      simp [List.filter_cons, hhd]

theorem fallbackGo_length (attempts : Nat → FallbackAttempt) :
    ∀ (fuel i : Nat) (acc : List Segment), acc.length < 2 →
    (fallbackGo attempts fuel i acc).length ≤ 2 := by
  intro fuel
  induction fuel with
  | zero => intro i acc h; unfold fallbackGo; omega
  | succ n ih =>
    intro i acc h
    unfold fallbackGo
    cases runFallbackAttempt (attempts i) with
    | none => exact ih (i + 1) acc h
    | some p =>
      obtain ⟨v, f⟩ := p
      dsimp only
      by_cases h2 : 2 ≤ (acc ++ [mkSegment ("fallback_" ++ toString (i + 1)) v f]).length
      · rw [if_pos h2]
        simp only [List.length_append, List.length_singleton]
        omega
      · rw [if_neg h2]
        apply ih
        simp only [List.length_append, List.length_singleton] at h2 ⊢
        omega

theorem fallbackGo_mem (attempts : Nat → FallbackAttempt) :
    ∀ (fuel i : Nat) (acc : List Segment) (s : Segment),
    s ∈ fallbackGo attempts fuel i acc →
    s ∈ acc ∨ ∃ j, i ≤ j ∧ j < i + fuel ∧ ∃ v f,
      runFallbackAttempt (attempts j) = some (v, f) ∧
      s = mkSegment ("fallback_" ++ toString (j + 1)) v f := by
  intro fuel
  induction fuel with
  | zero =>
    intro i acc s h
    unfold fallbackGo at h
    exact Or.inl h
  | succ n ih =>
    intro i acc s h
    unfold fallbackGo at h
    cases hr : runFallbackAttempt (attempts i) with
    | none =>
      rw [hr] at h
      rcases ih (i + 1) acc s h with hacc | ⟨j, hj1, hj2, v, f, hvf, hs⟩
      · exact Or.inl hacc
      · exact Or.inr ⟨j, by omega, by omega, v, f, hvf, hs⟩
    | some p =>
      obtain ⟨v, f⟩ := p
      rw [hr] at h
      dsimp only at h
      by_cases h2 : 2 ≤ (acc ++ [mkSegment ("fallback_" ++ toString (i + 1)) v f]).length
      · rw [if_pos h2] at h
        rcases List.mem_append.mp h with hacc | hs
        · exact Or.inl hacc
        · exact Or.inr ⟨i, le_refl i, by omega, v, f, hr, List.mem_singleton.mp hs⟩
      · rw [if_neg h2] at h
        rcases ih (i + 1) _ s h with hacc | ⟨j, hj1, hj2, v2, f2, hvf, hs⟩
        · rcases List.mem_append.mp hacc with hacc2 | hs
          · exact Or.inl hacc2
          · exact Or.inr ⟨i, le_refl i, by omega, v, f, hr, List.mem_singleton.mp hs⟩
        · exact Or.inr ⟨j, by omega, by omega, v2, f2, hvf, hs⟩

/-! ### Claim theorems -/

/-- C1: duration fitting is exact.  For every native duration d > 0 and
required slot duration r > 0, the fitted clip has duration exactly r; when
d < r the concatenation of floor(r/d)+1 copies has total duration at least
r before the final trim; and when d = r the clip passes through unchanged. -/
theorem fit_duration_exact (d r : ℚ) (hd : 0 < d) (hr : 0 < r) :
    (fitClip ⟨d⟩ r).duration = r ∧
    (d < r → r ≤ (concatenateClips
      (List.replicate ((⌊r / d⌋).toNat + 1) (Clip.mk d))).duration) ∧
    (d = r → fitClip ⟨d⟩ r = ⟨d⟩) := by
  refine ⟨?_, ?_, ?_⟩
  · unfold fitClip subclipped
    by_cases h1 : r < d
    · simp [h1]
    · by_cases h2 : d < r
      · simp [h1, h2]
      · have heq : d = r := le_antisymm (not_lt.mp h1) (not_lt.mp h2)
        simp [h1, h2, heq]
  · intro hdr
    have hq : (0 : ℚ) < r / d := div_pos hr hd
    have hfl : (0 : ℤ) ≤ ⌊r / d⌋ := Int.floor_nonneg.mpr hq.le
    have hlt : r / d < (⌊r / d⌋ : ℚ) + 1 := Int.lt_floor_add_one _
    have htn : (((⌊r / d⌋).toNat : ℤ) : ℚ) = ((⌊r / d⌋ : ℤ) : ℚ) := by
      rw [Int.toNat_of_nonneg hfl]
    have hcast : (((⌊r / d⌋).toNat + 1 : ℕ) : ℚ) = (⌊r / d⌋ : ℚ) + 1 := by
      push_cast at htn ⊢
      rw [htn]
    have hdur : (concatenateClips
        (List.replicate ((⌊r / d⌋).toNat + 1) (Clip.mk d))).duration
        = (((⌊r / d⌋).toNat + 1 : ℕ) : ℚ) * d := by
      simp [concatenateClips, List.map_replicate, List.sum_replicate,
        nsmul_eq_mul]
    rw [hdur, hcast]
    have hmul : r < ((⌊r / d⌋ : ℚ) + 1) * d := by
      have := (div_lt_iff₀ hd).mp hlt
      linarith
    linarith
  · intro heq
    subst heq
    simp [fitClip]

/-- Witness for C1 at d = 2, r = 5: the hypotheses hold and the fitted clip
has duration exactly 5. -/
theorem fit_duration_exact_witness :
    (0 : ℚ) < 2 ∧ (0 : ℚ) < 5 ∧ (fitClip ⟨2⟩ 5).duration = 5 :=
  ⟨by norm_num, by norm_num, (fit_duration_exact 2 5 (by norm_num) (by norm_num)).1⟩

/-- C9 counterexample: on a single-clip list the first branch of the fade
loop fires (i == 0), so the clip receives only the 0.5s fade-in; the claimed
fade-out for the clip that is simultaneously first and last never happens. -/
theorem fade_single_clip_cex :
    applyFadeTransitions [⟨[]⟩] = [⟨[VEffect.fadeIn (1/2)]⟩] ∧
    VEffect.fadeOut (1/2) ∉ (EClip.mk [VEffect.fadeIn (1/2)]).effects := by
  constructor
  · rfl
  · intro h
    rcases List.mem_singleton.mp h with h2
    exact VEffect.noConfusion h2

/-- C9 amended: among fade-free input clips, every non-first clip receives
the 0.5s fade-out, and a clip receives the 0.5s fade-in exactly when it is
first or not last; in particular a single clip receives only a fade-in,
while for two or more clips the first gets the fade-in, the last the
fade-out, and interior clips both. -/
theorem fade_policy_amended (clips : List EClip)
    (h0 : ∀ c ∈ clips, c.effects = []) (i : Nat)
    (hi : i < (applyFadeTransitions clips).length) :
    (applyFadeTransitions clips).length = clips.length ∧
    (VEffect.fadeOut (1/2) ∈ ((applyFadeTransitions clips).get ⟨i, hi⟩).effects
      ↔ i ≠ 0) ∧
    (VEffect.fadeIn (1/2) ∈ ((applyFadeTransitions clips).get ⟨i, hi⟩).effects
      ↔ (i = 0 ∨ i ≠ clips.length - 1)) := by
  have hlen : (applyFadeTransitions clips).length = clips.length := by
    simp [applyFadeTransitions]
  have hi2 : i < clips.length := hlen ▸ hi
  have hget : (applyFadeTransitions clips).get ⟨i, hi⟩ =
      (if i = 0 then withEffects (clips.get ⟨i, hi2⟩) [VEffect.fadeIn (1/2)]
       else if i = clips.length - 1 then
         withEffects (clips.get ⟨i, hi2⟩) [VEffect.fadeOut (1/2)]
       else withEffects (clips.get ⟨i, hi2⟩)
         [VEffect.fadeIn (1/2), VEffect.fadeOut (1/2)]) := by
    simp only [applyFadeTransitions] at hi ⊢
    exact List.get_mapIdx clips _ i hi2
  have hempty : (clips.get ⟨i, hi2⟩).effects = [] :=
    h0 _ (List.get_mem clips i hi2)
  rw [List.get_eq_getElem] at hempty
  refine ⟨hlen, ?_, ?_⟩
  · rw [hget]
    by_cases h1 : i = 0
    · subst h1
      rw [if_pos rfl]
      simp [withEffects, hempty]
    · rw [if_neg h1]
      by_cases h2 : i = clips.length - 1
      · subst h2
        rw [if_pos rfl]
        simp [withEffects, hempty, h1]
      · rw [if_neg h2]
        simp [withEffects, hempty, h1]
  · rw [hget]
    by_cases h1 : i = 0
    · subst h1
      rw [if_pos rfl]
      simp [withEffects, hempty]
    · rw [if_neg h1]
      by_cases h2 : i = clips.length - 1
      · subst h2
        rw [if_pos rfl]
        simp [withEffects, hempty, h1]
      · rw [if_neg h2]
        simp [withEffects, hempty, h1, h2]

/-- Witness for the amended C9 on a two-clip list: the second clip (the
last) receives the fade-out. -/
theorem fade_policy_amended_witness :
    VEffect.fadeOut (1/2) ∈
      ((applyFadeTransitions [⟨[]⟩, ⟨[]⟩]).get ⟨1, by decide⟩).effects :=
  ((fade_policy_amended [⟨[]⟩, ⟨[]⟩] (by decide) 1 (by decide)).2.1).mpr
    (by decide)

/-- C3: for every keyword without an internal space (keywords in this
pipeline are cleaned to 2-15 character alphabetic tokens before reaching
the planner), the generated query string contains the keyword as one of its
space-separated tokens, whatever the random draw (context sample, modifier
coin, modifier choice and shuffle). -/
theorem query_contains_keyword (keyword : String) (r : QueryRand)
    (hk : ' ' ∉ keyword.data) :
    keyword ∈ spaceTokens (generateDynamicQuery keyword r) := by
  have hmem : keyword ∈ generateDynamicQueryParts keyword r := by
    unfold generateDynamicQueryParts
    apply (shuffleAux_perm r.shuffleIdx _).mem_iff.mpr
    by_cases hm : r.useModifier <;> simp [hm]
  have hbc : ∀ s ∈ business_contexts, ' ' ∉ s.data := by decide
  have him : ∀ s ∈ industry_modifiers, ' ' ∉ s.data := by decide
  have hns : ∀ p ∈ generateDynamicQueryParts keyword r, ' ' ∉ p.data := by
    intro p hp
    rcases parts_vocab keyword r p hp with h | h | h
    · exact h ▸ hk
    · exact hbc p h
    · exact him p h
  have hne : generateDynamicQueryParts keyword r ≠ [] := by
    intro h
    rw [h] at hmem
    simp at hmem
  unfold generateDynamicQuery
  rw [spaceTokens_joinSp _ hne hns]
  exact hmem

/-- Witness for C3: the keyword growth appears as a token of the planned
query for a concrete draw with three contexts, a modifier and a shuffle. -/
theorem query_contains_keyword_witness :
    ' ' ∉ "growth".data ∧
    "growth" ∈ spaceTokens (generateDynamicQuery "growth" exQR2) :=
  ⟨by decide, query_contains_keyword "growth" exQR2 (by decide)⟩

/-- C6 counterexample: the planner has no locale vocabulary at all - no
random draw for any keyword can emit a token outside the single
business-context vocabulary, the industry modifiers and the keyword itself,
so the claimed probability-0.4 locale sampling (and the probability-0.3
secondary locale-language vocabulary) is an event of probability zero. -/
theorem no_locale_sampling : ¬ localeSamplingEvent := by
  rintro ⟨k, r, t, ht, hne, hb, hm⟩
  rcases parts_vocab k r t ht with h | h | h
  · exact hne h
  · exact hb h
  · exact hm h

/-- C6 amended: the planner always samples exactly 2 or 3 terms (matching
randint(2,3)) from the single general business-context vocabulary, appends
one industry modifier exactly when the 0.5 coin says so, and every token of
the assembled query is the keyword, a business-context term or an industry
modifier - there is no locale vocabulary and no locale bias. -/
theorem planner_vocabulary (keyword : String) (r : QueryRand)
    (hidx : (if r.ctxThree then 3 else 2) ≤ r.ctxIdx.length) :
    (selectedContexts r).length = (if r.ctxThree then 3 else 2) ∧
    (∀ t ∈ selectedContexts r, t ∈ business_contexts) ∧
    (generateDynamicQueryParts keyword r).length =
      1 + (selectedContexts r).length + (if r.useModifier then 1 else 0) ∧
    (∀ t ∈ generateDynamicQueryParts keyword r,
      t = keyword ∨ t ∈ business_contexts ∨ t ∈ industry_modifiers) := by
  refine ⟨?_, selectedContexts_subset r, ?_, parts_vocab keyword r⟩
  · unfold selectedContexts
    have htake : (r.ctxIdx.take (if r.ctxThree then 3 else 2)).length =
        (if r.ctxThree then 3 else 2) := by
      rw [List.length_take]
      exact min_eq_left hidx
    rw [sampleAux_length _ _ (by
      rw [htake]
      cases r.ctxThree <;> simp [business_contexts])]
    exact htake
  · unfold generateDynamicQueryParts
    rw [(shuffleAux_perm r.shuffleIdx _).length_eq]
    by_cases hm : r.useModifier <;> simp [hm] <;> omega

/-- Witness for the amended C6: for a concrete three-context draw the
planner samples exactly 3 context terms. -/
theorem planner_vocabulary_witness :
    (selectedContexts exQR2).length = (if exQR2.ctxThree then 3 else 2) :=
  (planner_vocabulary "growth" exQR2 (by decide)).1

/-- C4: the candidate score equals +2 per positive indicator occurring in
the lower-cased haystack, -3 per negative indicator so occurring, plus 1
exactly when the native duration lies in the inclusive window 8..15; and a
candidate whose haystack contains a positive indicator and no negative one
scores strictly higher than an otherwise-identical candidate with no
indicators at all. -/
theorem scoring_rule :
    (∀ v : Video, scoreVideo v =
      2 * (business_indicators.countP fun t => containsTerm (videoText v) t : ℤ) -
      3 * (avoid_keywords.countP fun t => containsTerm (videoText v) t : ℤ) +
      (if 8 ≤ v.duration ∧ v.duration ≤ 15 then 1 else 0)) ∧
    (∀ v1 v2 : Video, v1.duration = v2.duration →
      (∃ t ∈ business_indicators, containsTerm (videoText v1) t = true) →
      (∀ t ∈ avoid_keywords, containsTerm (videoText v1) t = false) →
      (∀ t ∈ business_indicators, containsTerm (videoText v2) t = false) →
      (∀ t ∈ avoid_keywords, containsTerm (videoText v2) t = false) →
      scoreVideo v2 < scoreVideo v1) := by
  have hf : ∀ v : Video, scoreVideo v =
      2 * (business_indicators.countP fun t => containsTerm (videoText v) t : ℤ) -
      3 * (avoid_keywords.countP fun t => containsTerm (videoText v) t : ℤ) +
      (if 8 ≤ v.duration ∧ v.duration ≤ 15 then 1 else 0) := by
    intro v
    simp only [scoreVideo]
    rw [foldl_add_two, foldl_sub_three]
    by_cases hw : 8 ≤ v.duration ∧ v.duration ≤ 15
    · rw [if_pos hw, if_pos hw]
      ring
    · rw [if_neg hw, if_neg hw]
      ring
  refine ⟨hf, ?_⟩
  intro v1 v2 hdur hpos hneg1 hpos2 hneg2
  rcases hpos with ⟨t, ht, hct⟩
  have hc1 : 0 < business_indicators.countP fun s => containsTerm (videoText v1) s :=
    List.countP_pos_iff.mpr ⟨t, ht, hct⟩
  have hz1 : (avoid_keywords.countP fun s => containsTerm (videoText v1) s) = 0 :=
    List.countP_eq_zero.mpr (by intro a ha; simp [hneg1 a ha])
  have hz2 : (business_indicators.countP fun s => containsTerm (videoText v2) s) = 0 :=
    List.countP_eq_zero.mpr (by intro a ha; simp [hpos2 a ha])
  have hz3 : (avoid_keywords.countP fun s => containsTerm (videoText v2) s) = 0 :=
    List.countP_eq_zero.mpr (by intro a ha; simp [hneg2 a ha])
  rw [hf v1, hf v2, hz1, hz2, hz3, hdur]
  have hcast : (1 : ℤ) ≤
      (business_indicators.countP fun s => containsTerm (videoText v1) s : ℤ) := by
    exact_mod_cast hc1
  push_cast
  by_cases hw : 8 ≤ v2.duration ∧ v2.duration ≤ 15
  · rw [if_pos hw]
    linarith
  · rw [if_neg hw]
    linarith

/-- Witness for C4: a candidate whose URL contains office scores strictly
higher than an otherwise-identical candidate with a neutral URL. -/
theorem scoring_rule_witness : scoreVideo exVidB < scoreVideo exVidA :=
  scoring_rule.2 exVidA exVidB rfl ⟨"office", by decide, by decide⟩
    (by decide) (by decide) (by decide)

/-- C2: the selection never returns a candidate whose identifier is already
used unless every candidate in the list is used - the used identifiers are
filtered out first, and the unfiltered list is only consulted when the
filter empties it. -/
theorem selection_avoids_used (videos : List Video) (used : List Nat)
    (pick : Nat) (v : Video)
    (hsel : selectBestBusinessVideo videos used pick = some v)
    (hv : v.id ∈ used) : ∀ w ∈ videos, w.id ∈ used := by
  intro w hw
  simp only [selectBestBusinessVideo] at hsel
  by_cases hA : (videos.filter fun x => decide (x.id ∉ used)).isEmpty
  · have hnil := List.isEmpty_iff.mp hA
    have := List.filter_eq_nil_iff.mp hnil w hw
    simpa using this
  · exfalso
    set fl := videos.filter fun x => decide (x.id ∉ used) with hfl
    rw [if_neg hA] at hsel
    have hmapne : ¬ ((fl.map fun x => (scoreVideo x, x)).isEmpty = true) := by
      intro hmap
      cases hc : fl with
      | nil =>
        rw [hc] at hA
        simp at hA
      | cons a l =>
        rw [hc] at hmap
        simp at hmap
    rw [if_neg hmapne] at hsel
    rcases Option.map_eq_some'.mp hsel with ⟨p, hp, hpv⟩
    have hptop := List.getElem?_mem hp
    have hpsorted := List.mem_of_mem_take hptop
    have hpscored :=
      (sortDescBy_perm Prod.fst (fl.map fun x => (scoreVideo x, x))).mem_iff.mp
        hpsorted
    rcases List.mem_map.mp hpscored with ⟨u, hufl, hup⟩
    have huv : u = v := by
      rw [← hpv, ← hup]
    have hdec := (List.mem_filter.mp hufl).2
    rw [huv] at hdec
    simp at hdec
    exact hdec hv

/-- Witness for C2: with a single candidate whose identifier is already
used, the filter empties, the fallback re-admits the candidate, and the
conclusion - every candidate is used - holds. -/
theorem selection_avoids_used_witness :
    selectBestBusinessVideo [exVidA] [1] 0 = some exVidA ∧ exVidA.id ∈ [1] :=
  ⟨by decide,
    selection_avoids_used [exVidA] [1] 0 exVidA (by decide) (by decide)
      exVidA (by decide)⟩

/-- C5 counterexample: one failing word does not cost only its own caption.
With three words where only the middle build raises, the whole caption pass
returns the empty list, although the first word is non-empty and its build
succeeds - its caption is dropped too. -/
theorem subtitles_one_failure_cex :
    createWordLevelSubtitles exBuildFail exWords = [] ∧
    pyStrip (WordData.mk "ciao" 0 1).word ≠ "" ∧
    exBuildFail ⟨"ciao", 0, 1⟩ = Except.ok (exCap ⟨"ciao", 0, 1⟩) := by
  refine ⟨by decide, by decide, rfl⟩

/-- C5 amended: the try block wraps the whole word loop, so a single
failing caption build aborts the pass and every caption is dropped (the
run itself continues with an empty caption list); only when every build
succeeds does each word with non-empty stripped text yield its caption, in
order. -/
theorem subtitles_failure_amended (build : WordData → Except String Caption)
    (f : WordData → Caption) (words : List WordData) :
    ((∃ w ∈ words, pyStrip w.word ≠ "" ∧ ∃ e, build w = Except.error e) →
      createWordLevelSubtitles build words = []) ∧
    ((∀ w ∈ words, pyStrip w.word ≠ "" → build w = Except.ok (f w)) →
      createWordLevelSubtitles build words =
        (words.filter fun w => decide (pyStrip w.word ≠ "")).map f) := by
  constructor
  · intro h
    unfold createWordLevelSubtitles
    obtain ⟨e2, he2⟩ := subtitleLoop_error build words [] h
    rw [he2]
  · intro h
    unfold createWordLevelSubtitles
    rw [subtitleLoop_ok build f words [] h]
    simp

/-- Witness for the amended C5: with an always-succeeding build, the three
example words yield exactly the captions of their non-empty stripped
texts. -/
theorem subtitles_failure_amended_witness :
    createWordLevelSubtitles exBuildOk exWords =
      (exWords.filter fun w => decide (pyStrip w.word ≠ "")).map exCap :=
  (subtitles_failure_amended exBuildOk exCap exWords).2 (fun _ _ _ => rfl)

/-- C7 counterexample: the fallback label carries the iteration counter,
not the appended-segment count.  When the first fallback search comes back
empty and the next two succeed, the two appended segments are labeled
fallback_2 and fallback_3, not fallback_1 and fallback_2. -/
theorem fallback_labels_cex :
    (getFallbackVideos exAttemptsCex).map Segment.keyword =
      ["fallback_2", "fallback_3"] ∧
    (getFallbackVideos exAttemptsCex).map Segment.keyword ≠
      ["fallback_1", "fallback_2"] := by
  refine ⟨by decide, by decide⟩

/-- C7 amended: at most 2 fallback segments are appended; each appended
segment comes from an iteration whose candidates were fetched through the
dynamic query planner and then chosen by random.choice (not the business
scorer), and it is labeled fallback_(j+1) where j is that iteration index
(so the labels are fallback_1, fallback_2 only when the first two
iterations both produce a segment). -/
theorem fallback_cap_and_labels (attempts : Nat → FallbackAttempt) :
    (getFallbackVideos attempts).length ≤ 2 ∧
    ∀ s ∈ getFallbackVideos attempts, ∃ j, j < 5 ∧ ∃ v f,
      runFallbackAttempt (attempts j) = some (v, f) ∧
      s = mkSegment ("fallback_" ++ toString (j + 1)) v f := by
  constructor
  · exact fallbackGo_length attempts 5 0 [] (by simp)
  · intro s hs
    rcases fallbackGo_mem attempts 5 0 [] s hs with hacc | ⟨j, _, hj2, v, f, hvf, hlab⟩
    · simp at hacc
    · exact ⟨j, by omega, v, f, hvf, hlab⟩

/-- Witness for the amended C7: with all-succeeding iterations, the first
produced segment is labeled fallback_1 and comes from iteration 0. -/
theorem fallback_cap_and_labels_witness :
    ∃ j, j < 5 ∧ ∃ v f,
      runFallbackAttempt (exAttemptsW j) = some (v, f) ∧
      mkSegment "fallback_1" exVid exFile =
        mkSegment ("fallback_" ++ toString (j + 1)) v f :=
  (fallback_cap_and_labels exAttemptsW).2
    (mkSegment "fallback_1" exVid exFile) (by decide)

/-- C8: cleanup is not invoked on every exit path.  In the main Pexels
pipeline an exception in any stage re-raises without cleanup (the Bool
component, recording whether _cleanup_temp_files ran, is false on the error
exit), while the success path and every exit of the T2V pipeline do attempt
cleanup - the claim and the spec describe the T2V behavior, which the main
generator fails to implement. -/
theorem cleanup_exit_paths :
    mainGenerateReel ⟨true, true, false, true, true⟩ =
      (Except.error "pexels search raised", false) ∧
    mainGenerateReel ⟨true, true, true, true, true⟩ =
      (Except.ok "final_video_path", true) ∧
    t2vGenerateReel ⟨true, true, false, true, ["f.mp4"], true⟩ =
      (Except.error "prompt generation raised", true) ∧
    t2vGenerateReel ⟨true, true, true, true, [], true⟩ =
      (Except.error "No videos were successfully generated by T2V service",
        true) :=
  ⟨rfl, rfl, rfl, rfl⟩

/-- C10: calling the segment selection with an empty keyword list hits the
division target_duration / len(keywords) before any per-keyword error
handling and aborts with ZeroDivisionError instead of returning an empty
result; for every non-empty keyword list the slot duration is defined and
equals max(6, targetDuration / keywordCount). -/
theorem slot_duration_division (attempt : String → ℚ → List Nat → Option Segment)
    (fallbackSegs : List Segment) (targetDuration : ℚ) :
    searchPortraitVideos attempt fallbackSegs [] targetDuration =
      Except.error "ZeroDivisionError" ∧
    ∀ keywords : List String, keywords ≠ [] →
      durationPerVideo targetDuration keywords =
        Except.ok (max 6 (targetDuration / keywords.length)) := by
  constructor
  · rfl
  · intro kws hne
    unfold durationPerVideo
    rw [if_neg (fun h => hne (List.length_eq_zero.mp h))]

/-- Witness for C10: the empty list aborts, and one keyword gives the slot
duration max(6, 30/1) = 30. -/
theorem slot_duration_division_witness :
    searchPortraitVideos (fun _ _ _ => none) [] ([] : List String) 30 =
      Except.error "ZeroDivisionError" ∧
    durationPerVideo 30 ["office"] = Except.ok 30 := by
  refine ⟨(slot_duration_division (fun _ _ _ => none) [] 30).1, ?_⟩
  have h := (slot_duration_division (fun _ _ _ => none) [] 30).2 ["office"]
    (by decide)
  rw [h]
  norm_num
